import Mathlib

/-!
Verification of the multi-view knowledge-visualization module
(`assets/js/graph.js`): dataset normalization (`buildGraphFromNotes`),
the time-analytics pipeline (`getTimeFilterRange`, `filterTodosByTimeRange`,
the aggregation in `renderTimeContent`), the view coordinator
(`switchView` / `renderCurrentView`), the graph-view entrance schedule, and
the theme color table.

Modelling conventions:
* JS strings are Lean `String`s; JS string comparison `<` is lexicographic.
* JS `null`/`undefined` fields are `Option.none`; JS truthiness of the
  modelled values is made explicit (`""` and `0` are falsy).
* JS `Date`s are modelled as proleptic-Gregorian calendar dates in a
  fixed-offset timezone (no DST), carrying year, month index (0-11 as in
  `getMonth()`), day of month (`getDate()`), and milliseconds within the
  day; absolute time is milliseconds since the 1970-01-01 epoch.
* JS numbers used by the analytics (`estimatedMin`, `actualMin`, epoch
  milliseconds) are modelled as `Int`; the one fractional computation
  (the pomodoro count) is modelled over `Rat` with `Math.round`
  rounding half toward positive infinity.
-/

/-! ## Dataset normalizer (`buildGraphFromNotes`, graph.js lines 99-160) -/

/-- A raw note record from the external notes store (`NoteRecord` contract).
`title = ""` models a missing/empty title (both are JS-falsy and are
skipped by the normalizer); `tags = none` models a missing tags field. -/
structure Note where
  id : String
  title : String
  destination : String
  tags : Option (List String)
deriving DecidableEq

/-- A normalized node. The `path` field of the source (a DOM-derived URL
built from the page's manifest base URL) is omitted: no claim depends on it. -/
structure Node where
  id : String
  label : String
  number_neighbours : Nat
  category : String
  tags : List String
deriving DecidableEq

/-- A normalized edge (`{source, target, type}`). -/
structure Edge where
  source : String
  target : String
  type : String
deriving DecidableEq

/-- The dataset `{nodes, edges}` handed to the renderers. -/
structure GraphData where
  nodes : List Node
  edges : List Edge
deriving DecidableEq

/-- `destinationToCategory` (graph.js lines 99-105). -/
def destinationToCategory (dest : String) : String :=
  if dest == "book-note" then "books"
  else if dest == "topic" then "topics"
  else if dest == "inbox" then "inbox"
  else if dest == "snippets" then "snippets"
  else "default"

/-- Node construction (graph.js lines 114-124): notes with a falsy title
are skipped; `number_neighbours` starts at 0; `tags` defaults to `[]`. -/
def buildNodes (notes : List Note) : List Node :=
  (notes.filter (fun nt => !(nt.title == ""))).map
    (fun nt => ⟨nt.id, nt.title, 0, destinationToCategory nt.destination, nt.tags.getD []⟩)

/-- The shared-tag test of the inner edge loop (graph.js lines 134-137):
some tag of `a` occurs in `b`'s tag list. -/
def sharesTagB (a b : Node) : Bool :=
  a.tags.any (fun t => b.tags.contains t)

/-- The canonical dedup key (graph.js lines 139-141):
`min(id,id) + '|' + max(id,id)` under JS string comparison. -/
def edgeKey (a b : String) : String :=
  if a < b then a ++ "|" ++ b else b ++ "|" ++ a

/-- The inner loop over `j = i+1 ..` of the edge construction
(graph.js lines 130-147), carrying the `edgeSet` key list and the
accumulated edge list. -/
def innerLoop (a : Node) : List Node → List String → List Edge → List String × List Edge
  | [], ks, es => (ks, es)
  | b :: rest, ks, es =>
    if b.tags.isEmpty then innerLoop a rest ks es
    else if sharesTagB a b then
      let k := edgeKey a.id b.id
      if k ∈ ks then innerLoop a rest ks es
      else innerLoop a rest (k :: ks) (es ++ [⟨a.id, b.id, "tag"⟩])
    else innerLoop a rest ks es

/-- The outer loop over `i` of the edge construction (graph.js lines 127-148). -/
def outerLoop : List Node → List String → List Edge → List String × List Edge
  | [], ks, es => (ks, es)
  | a :: rest, ks, es =>
    if a.tags.isEmpty then outerLoop rest ks es
    else
      let r := innerLoop a rest ks es
      outerLoop rest r.1 r.2

/-- Edge construction from shared tags (graph.js lines 126-148). -/
def buildEdges (nodes : List Node) : List Edge :=
  (outerLoop nodes [] []).2

/-- The neighbour-count pass (graph.js lines 150-157): for every edge,
every node whose id equals the edge's source or target is incremented. -/
def countNeighbours (nodes : List Node) (edges : List Edge) : List Node :=
  edges.foldl
    (fun ns e =>
      ns.map (fun n =>
        if n.id = e.source ∨ n.id = e.target then
          { n with number_neighbours := n.number_neighbours + 1 }
        else n))
    nodes

/-- `buildGraphFromNotes` (graph.js lines 107-160). -/
def buildGraphFromNotes (notes : List Note) : GraphData :=
  let nodes := buildNodes notes
  let edges := buildEdges nodes
  ⟨countNeighbours nodes edges, edges⟩

/-- Whether edge `e` connects the unordered id pair `{x, y}`. -/
def connectsB (e : Edge) (x y : String) : Bool :=
  (e.source == x && e.target == y) || (e.source == y && e.target == x)

/-- All ordered pairs `(l[i], l[j])` with `i < j`, in the iteration order
of the nested edge loops. -/
def allPairs {α : Type} : List α → List (α × α)
  | [] => []
  | a :: l => l.map (fun b => (a, b)) ++ allPairs l

/-! ## Time analytics: todos, dates, filter, aggregation
(graph.js lines 859-1128) -/

/-- A timestamp-like JS value stored on a todo: a Firestore `Timestamp`
exposing `toDate()`, a plain object with a numeric `seconds` field, a date
string, or an epoch-milliseconds number. For strings the result of
`new Date(s)` is carried as `parsed` (`none` = Invalid Date) together with
the string's JS-truthiness (`isEmpty`). -/
inductive TSVal where
  | fsToDate (ms : Int)
  | fsSeconds (s : Int)
  | strv (isEmpty : Bool) (parsed : Option Int)
  | num (n : Int)
deriving DecidableEq

/-- JS truthiness of a timestamp-like value: objects are truthy, a string
is falsy iff empty, a number is falsy iff 0. -/
def TSVal.truthy : TSVal → Bool
  | .fsToDate _ => true
  | .fsSeconds _ => true
  | .strv e _ => !e
  | .num n => !(n == 0)

/-- The date-parsing ladder of `filterTodosByTimeRange`
(graph.js lines 1058-1065, 1067): `toDate()` if present, else
`seconds * 1000` if `seconds` is truthy, else `new Date(dateVal)`
(`none` models an Invalid Date / NaN time value). -/
def parseTS : TSVal → Option Int
  | .fsToDate ms => some ms
  | .fsSeconds s => if s == 0 then none else some (s * 1000)
  | .strv _ p => p
  | .num n => some n

/-- JS `a || b` over optional timestamp-like values. -/
def jsOrTS (a b : Option TSVal) : Option TSVal :=
  match a with
  | some v => if v.truthy then some v else b
  | none => b

/-- A todo record from the external todos store. -/
structure Todo where
  completedAt : Option TSVal
  updatedAt : Option TSVal
  createdAt : Option TSVal
  done : Bool
  parentId : Option String
  actualMin : Option Int
  estimatedMin : Option Int
  category : Option String
deriving DecidableEq

/-- `t.completedAt || t.updatedAt || t.createdAt` (graph.js line 1054). -/
def dateValOf (t : Todo) : Option TSVal :=
  jsOrTS t.completedAt (jsOrTS t.updatedAt t.createdAt)

/-- JS truthiness of an optional timestamp-like value
(`!dateVal` is the negation of this). -/
def truthyOpt : Option TSVal → Bool
  | none => false
  | some v => v.truthy

/-- JS truthiness of an optional string (used for `!t.parentId`):
truthy iff present and non-empty. -/
def strOptTruthy : Option String → Bool
  | none => false
  | some s => !(s == "")

/-! ### JS `Date` calendar model (proleptic Gregorian, no DST) -/

/-- A JS `Date` in local time: `year`/`month` (0-11)/`day` (1-31) as read
by `getFullYear()`/`getMonth()`/`getDate()`, and the milliseconds elapsed
within that day. -/
structure JSDate where
  year : Int
  month : Nat
  day : Int
  ms : Int
deriving DecidableEq

/-- Days from 0000-01-01 to Jan 1 of year `y` in the proleptic Gregorian
calendar (year 0 is a leap year): `365*y` plus the number of leap years
in `[0, y)`. -/
def daysToYear (y : Int) : Int :=
  365 * y + (y + 3) / 4 - (y + 99) / 100 + (y + 399) / 400

/-- Gregorian leap-year predicate. -/
def isLeapB (y : Int) : Bool :=
  (y % 4 == 0 && !(y % 100 == 0)) || y % 400 == 0

/-- Days in the given year before month `m` (0-11 as in `getMonth()`).
Arguments ≥ 11 take the December entry; the functions below only apply it
to month indices ≤ 11. -/
def monthOffset (leap : Bool) (m : Nat) : Int :=
  let l : Int := if leap then 1 else 0
  match m with
  | 0 => 0
  | 1 => 31
  | 2 => 59 + l
  | 3 => 90 + l
  | 4 => 120 + l
  | 5 => 151 + l
  | 6 => 181 + l
  | 7 => 212 + l
  | 8 => 243 + l
  | 9 => 273 + l
  | 10 => 304 + l
  | _ => 334 + l

/-- Day number since the 1970-01-01 epoch of calendar coordinates
`(y, m, d)`; `d` may lie outside `[1, daysInMonth]`, which models the JS
`Date` field-overflow normalization (e.g. "Feb 31" rolls into March). -/
def civilToDays (y : Int) (m : Nat) (d : Int) : Int :=
  daysToYear y - 719528 + monthOffset (isLeapB y) m + (d - 1)

/-- Milliseconds per day. -/
def msPerDay : Int := 86400000

/-- Epoch-milliseconds time value of a date (`Date.prototype.valueOf`). -/
def JSDate.ts (dt : JSDate) : Int :=
  civilToDays dt.year dt.month dt.day * msPerDay + dt.ms

/-- Time value after `weekAgo.setDate(weekAgo.getDate() - 7)`
(graph.js lines 1026-1027). -/
def weekAgoTs (now : JSDate) : Int :=
  civilToDays now.year now.month (now.day - 7) * msPerDay + now.ms

/-- Time value after `monthAgo.setMonth(monthAgo.getMonth() - 1)`
(graph.js lines 1031-1032): month index -1 borrows from the year and the
day of month is kept, with overflow normalization. -/
def monthAgoTs (now : JSDate) : Int :=
  let mm : Int := (now.month : Int) - 1
  civilToDays (now.year + mm / 12) ((mm % 12).toNat) now.day * msPerDay + now.ms

/-- Time value after `yearAgo.setFullYear(yearAgo.getFullYear() - 1)`
(graph.js lines 1036-1037). -/
def yearAgoTs (now : JSDate) : Int :=
  civilToDays (now.year - 1) now.month now.day * msPerDay + now.ms

/-- The time-filter presets (`_timeFilterState.mode`). -/
inductive TimeFilterMode where
  | week
  | month
  | year
  | all
  | custom
deriving DecidableEq

/-- A filter range: optional lower/upper bound time values
(`{from, to}`; `none` = `null`). -/
structure TimeRange where
  fromMs : Option Int
  toMs : Option Int
deriving DecidableEq

/-- `getTimeFilterRange` (graph.js lines 1021-1047). The custom bounds are
taken as already-parsed time values (`none` when the stored string is
empty; an unparseable custom date yields NaN bounds in JS, whose
comparisons are always false, which `none` reproduces). -/
def getTimeFilterRange (mode : TimeFilterMode) (customFromTs customToTs : Option Int)
    (now : JSDate) : TimeRange :=
  match mode with
  | .week => ⟨some (weekAgoTs now), some now.ts⟩
  | .month => ⟨some (monthAgoTs now), some now.ts⟩
  | .year => ⟨some (yearAgoTs now), some now.ts⟩
  | .custom => ⟨customFromTs, customToTs⟩
  | .all => ⟨none, none⟩

/-- The per-todo predicate of `filterTodosByTimeRange`
(graph.js lines 1052-1072): missing/falsy date value → keep; unparseable
date → keep; otherwise keep iff within the bounds that are present. -/
def todoKeep (r : TimeRange) (t : Todo) : Bool :=
  match dateValOf t with
  | none => true
  | some v =>
    if !v.truthy then true
    else
      match parseTS v with
      | none => true
      | some d =>
        if (match r.fromMs with | some f => decide (d < f) | none => false) then false
        else if (match r.toMs with | some u => decide (u < d) | none => false) then false
        else true

/-- `filterTodosByTimeRange` (graph.js lines 1049-1073): with no bounds the
input list is returned as-is. -/
def filterTodosByTimeRange (todos : List Todo) (r : TimeRange) : List Todo :=
  if r.fromMs.isNone && r.toMs.isNone then todos
  else todos.filter (todoKeep r)

/-- The todos that participate in the analytics aggregation
(graph.js lines 1081-1082): range-filter, then
`t.done && t.actualMin != null && !t.parentId`. -/
def completedTodosOf (allTodos : List Todo) (mode : TimeFilterMode)
    (customFromTs customToTs : Option Int) (now : JSDate) : List Todo :=
  (filterTodosByTimeRange allTodos (getTimeFilterRange mode customFromTs customToTs now)).filter
    (fun t => t.done && t.actualMin.isSome && !(strOptTruthy t.parentId))

/-- The claim-side "missing or unparseable timestamp" condition, phrased
over the source's own date ladder. -/
def timestampMissingOrUnparseable (t : Todo) : Bool :=
  match dateValOf t with
  | none => true
  | some v => !v.truthy || (parseTS v).isNone

/-- `t.estimatedMin || 25` (graph.js lines 1104, 1116): a missing or zero
estimate falls back to 25. -/
def estOf (t : Todo) : Int :=
  match t.estimatedMin with
  | none => 25
  | some v => if v = 0 then 25 else v

/-- `t.actualMin || 0` (graph.js lines 1105, 1117). -/
def actOf (t : Todo) : Int :=
  match t.actualMin with
  | none => 0
  | some v => v

/-- `t.category || 'Uncategorized'` (graph.js line 1112). -/
def catOf (t : Todo) : String :=
  match t.category with
  | none => "Uncategorized"
  | some c => if c = "" then "Uncategorized" else c

/-- One row of the per-category aggregation (`categoryData` entries). -/
structure CatAgg where
  name : String
  estimated : Int
  actual : Int
  count : Nat
deriving DecidableEq

/-- One step of the `categoryMap` accumulation (graph.js lines 1111-1119),
with the JS object modelled as an insertion-ordered association list. -/
def addTodoToCats (cats : List CatAgg) (t : Todo) : List CatAgg :=
  if cats.any (fun c => c.name == catOf t) then
    cats.map (fun c =>
      if c.name == catOf t then
        ⟨c.name, c.estimated + estOf t, c.actual + actOf t, c.count + 1⟩
      else c)
  else cats ++ [⟨catOf t, estOf t, actOf t, 1⟩]

/-- The unsorted `categoryData` (graph.js lines 1110-1127), keys in
insertion order as `Object.keys` yields them for these string keys. -/
def categoryDataUnsorted (ts : List Todo) : List CatAgg :=
  ts.foldl addTodoToCats []

/-- Stable descending insertion by `actual`: an element is placed after
all earlier elements with `actual ≥` its own. -/
def insertByActualDesc (x : CatAgg) : List CatAgg → List CatAgg
  | [] => [x]
  | y :: ys => if x.actual ≤ y.actual then y :: insertByActualDesc x ys else x :: y :: ys

/-- `categoryData` sorted by `.sort((a, b) => b.actual - a.actual)`
(graph.js line 1128); `Array.prototype.sort` is stable, modelled by a
stable insertion sort. -/
def categoryData (ts : List Todo) : List CatAgg :=
  (categoryDataUnsorted ts).foldl (fun acc x => insertByActualDesc x acc) []

/-- `totalEstimated` (graph.js lines 1101-1106). -/
def totalEstimatedOf (ts : List Todo) : Int :=
  ts.foldl (fun s t => s + estOf t) 0

/-- `totalActual` (graph.js lines 1101-1106). -/
def totalActualOf (ts : List Todo) : Int :=
  ts.foldl (fun s t => s + actOf t) 0

/-- `Math.round`: rounds half toward positive infinity. -/
def jsRound (x : Rat) : Int :=
  Rat.floor (x + 1 / 2)

/-- `totalPomodoros = Math.round((totalActual / 25) * 10) / 10`
(graph.js line 1107). -/
def totalPomodorosOf (ts : List Todo) : Rat :=
  (jsRound ((totalActualOf ts : Rat) / 25 * 10) : Rat) / 10

/-! ## Theme color table (`getThemeColors` lines 26-50,
`getCategoryColor` lines 321-323) -/

/-- A `{node, glow}` palette entry. -/
structure ColorPair where
  node : String
  glow : String
deriving DecidableEq

/-- JS `a || b` for strings (CSS custom-property fallback: `cssVar(...)`
returns `""` when unset, which is falsy). -/
def jsOrStr (a b : String) : String :=
  if a == "" then b else a

/-- The `'default'` palette entry (graph.js line 33). -/
def defaultColorPair (dark : Bool) : ColorPair :=
  ⟨if dark then "#90a4ae" else "#78909c", if dark then "#546e7a" else "#b0bec5"⟩

/-- A value that `CATEGORY_COLORS[category]` can evaluate to: one of the
object's own palette entries, or a value inherited through the prototype
chain (`Object.prototype` methods and accessors, e.g.
`CATEGORY_COLORS["toString"]` is the inherited `toString` function —
truthy, but not a palette entry). -/
inductive CatColorVal where
  | pal (c : ColorPair)
  | protoVal (key : String)
deriving DecidableEq

/-- The property names an object literal inherits from `Object.prototype`
in browser JS (standard properties plus the Annex-B legacy accessors).
Looking any of these up on `CATEGORY_COLORS` yields a truthy inherited
value, not `undefined`. -/
def objectProtoKeys : List String :=
  ["constructor", "hasOwnProperty", "isPrototypeOf", "propertyIsEnumerable",
   "toLocaleString", "toString", "valueOf", "__proto__",
   "__defineGetter__", "__defineSetter__", "__lookupGetter__", "__lookupSetter__"]

/-- `theme.CATEGORY_COLORS[category]` (graph.js lines 29-34): own entries
exist only for `books`, `topics`, `inbox` and `default`; property names
inherited from `Object.prototype` evaluate to the (truthy) inherited
value; everything else is `undefined` (`none`). `vb`/`vg`/`vo` are the
values of the `--accent-blue`/`-green`/`-orange` CSS custom properties
(`""` when unset). -/
def categoryColors (dark : Bool) (vb vg vo : String) (cat : String) : Option CatColorVal :=
  if cat == "books" then
    some (.pal ⟨jsOrStr vb (if dark then "#64b5f6" else "#1976d2"),
                if dark then "#1976d2" else "#90caf9"⟩)
  else if cat == "topics" then
    some (.pal ⟨jsOrStr vg (if dark then "#81c784" else "#388e3c"),
                if dark then "#388e3c" else "#a5d6a7"⟩)
  else if cat == "inbox" then
    some (.pal ⟨jsOrStr vo (if dark then "#ffb74d" else "#e65100"),
                if dark then "#f57c00" else "#ffcc80"⟩)
  else if cat == "default" then some (.pal (defaultColorPair dark))
  else if cat ∈ objectProtoKeys then some (.protoVal cat)
  else none

/-- `getCategoryColor` (graph.js lines 321-323):
`CATEGORY_COLORS[category] || CATEGORY_COLORS['default']`. Every value
the lookup can produce (own palette entries and inherited
objects/functions alike) is truthy, so only `undefined` falls back. -/
def getCategoryColor (dark : Bool) (vb vg vo : String) (cat : String) : CatColorVal :=
  match categoryColors dark vb vg vo cat with
  | some c => c
  | none => .pal (defaultColorPair dark)

/-! ## View coordinator (`switchView` lines 253-278,
`renderCurrentView` lines 280-303) -/

/-- The renderer invocations `renderCurrentView` can dispatch. -/
inductive RenderAction where
  | renderTime
  | initGraphAction
  | renderGridAction
  | renderSunburstAction
deriving DecidableEq

/-- The coordinator's mutable module state plus the relevant DOM state:
`storedViewMode` models the `dm-view-mode` localStorage key and
`activeContainer` the unique `.view-container` carrying the `active`
class (`none` when no wrapper matched). -/
structure ViewState where
  currentView : String
  storedViewMode : String
  activeContainer : Option String
  graphRendered : Bool
  gridRendered : Bool
  radialRendered : Bool
  timeRendered : Bool
  cachedData : Option GraphData
deriving DecidableEq

/-- The view names for which a `<name>-wrapper` container exists in the
embedding page. -/
def knownViews : List String := ["graph", "grid", "radial", "time"]

/-- `renderCurrentView` (graph.js lines 280-303), returning the updated
state and the renderer invocations performed. -/
def renderCurrentView (s : ViewState) : ViewState × List RenderAction :=
  if s.currentView == "time" && !s.timeRendered then
    ({ s with timeRendered := true }, [RenderAction.renderTime])
  else if s.cachedData.isNone then (s, [])
  else if s.currentView == "graph" && !s.graphRendered then
    ({ s with graphRendered := true }, [RenderAction.initGraphAction])
  else if s.currentView == "grid" && !s.gridRendered then
    ({ s with gridRendered := true }, [RenderAction.renderGridAction])
  else if s.currentView == "radial" && !s.radialRendered then
    ({ s with radialRendered := true }, [RenderAction.renderSunburstAction])
  else (s, [])

/-- `switchView` (graph.js lines 253-278): set and persist the view name,
re-point the single active container (none when no wrapper matches), and
dispatch `renderCurrentView`. -/
def switchView (s : ViewState) (viewName : String) : ViewState × List RenderAction :=
  let s1 : ViewState :=
    { s with
      currentView := viewName
      storedViewMode := viewName
      activeContainer := if viewName ∈ knownViews then some viewName else none }
  renderCurrentView s1

/-- The "rendered" flag of a view (graph.js lines 83-86). -/
def viewRenderedFlag (s : ViewState) (v : String) : Bool :=
  if v == "graph" then s.graphRendered
  else if v == "grid" then s.gridRendered
  else if v == "radial" then s.radialRendered
  else if v == "time" then s.timeRendered
  else true

/-! ## Graph-view entrance schedule (graph.js lines 452-471) -/

/-- Entrance delay of the node at index `i`: `i * 80` (graph.js line 454). -/
def nodeEntranceDelay (i : Nat) : Nat := i * 80

/-- Entrance delay of the label at index `i`: `i * 80 + 300`
(graph.js line 461). -/
def labelEntranceDelay (i : Nat) : Nat := i * 80 + 300

/-- Entrance delay of every edge: `nodeCount * 80 + 200`
(graph.js lines 466-468). -/
def edgeEntranceDelay (nodeCount : Nat) : Nat := nodeCount * 80 + 200

/-- The edge built for a sharing pair of nodes. -/
def mkTagEdge (p : Node × Node) : Edge := ⟨p.1.id, p.2.id, "tag"⟩

/-- Whether the ordered node pair `p` carries the unordered id pair
`{x, y}`. -/
def pairConnectsB (p : Node × Node) (x y : String) : Bool :=
  (p.1.id == x && p.2.id == y) || (p.1.id == y && p.2.id == x)

/-! ## Concrete inputs used by counterexamples and witnesses -/

/-- Shared two-note corpus used to witness the graph-construction claims. -/
def twoNoteCorpus : List Note :=
  [⟨"a", "ta", "inbox", some ["t"]⟩, ⟨"b", "tb", "topic", some ["t"]⟩]

/-- The epoch instant 1970-01-01T00:00 as a `JSDate`. -/
def epochDate : JSDate := ⟨1970, 0, 1, 0⟩

/-- A completed todo with recorded actual time whose `parentId` is the
empty string (a JS-falsy but non-null value). -/
def emptyParentTodo : Todo := ⟨none, none, none, true, some "", some 5, none, none⟩

/-- The three todos of the aggregation-correctness test
(all completed, top-level, no timestamps). -/
def specTodos : List Todo :=
  [⟨none, none, none, true, none, some 30, some 25, some "A"⟩,
   ⟨none, none, none, true, none, some 10, some 20, some "A"⟩,
   ⟨none, none, none, true, none, some 5, some 25, some "B"⟩]

/-- A todo carrying a valid completion timestamp, parameterized by the
epoch-milliseconds value. -/
def stampedTodo (ms : Int) : Todo := ⟨some (.fsToDate ms), none, none, true, none, some 5, none, none⟩

/-- A todo with no timestamp fields at all. -/
def datelessTodo : Todo := ⟨none, none, none, false, none, none, none, none⟩

/-! ## Model validation: the calendar agrees with JS `Date` on samples. -/

/-- 1970-01-01 is epoch day 0. -/
theorem civilToDays_epoch : civilToDays 1970 0 1 = 0 := by decide

/-- 2000-03-01 is epoch day 11017 (as `Date.UTC(2000, 2, 1) / 86400000`). -/
theorem civilToDays_y2k_mar : civilToDays 2000 2 1 = 11017 := by decide

/-- 2024-06-15 is epoch day 19889. -/
theorem civilToDays_sample : civilToDays 2024 5 15 = 19889 := by decide

/-- "February 31, 2025" normalizes to March 3, 2025 (overflow), as JS
`setMonth` does. -/
theorem civilToDays_overflow : civilToDays 2025 1 31 = civilToDays 2025 2 3 := by decide

/-! ## C8: entrance schedule -/

/-- C8 counterexample: at node count `n = 1` (so index `i = 0` is a valid
label index), the edges' entrance delay (280 ms) does NOT strictly exceed
the label's entrance delay (300 ms), contradicting the claim that the edge
delay strictly exceeds every label delay. -/
theorem entrance_order_cex :
    1 ≤ 1 ∧ 0 < 1 ∧ ¬ (labelEntranceDelay 0 < edgeEntranceDelay 1) := by decide

/-- C8 amended: for every node count `n ≥ 1` the edges' entrance delay
equals `n * 80 + 200` and strictly exceeds every node's entrance delay
`i * 80` (`i < n`) and every label's entrance delay `i * 80 + 300` for
`i ≤ n - 2`; but the LAST label's delay `(n-1) * 80 + 300 = n * 80 + 220`
strictly exceeds the edges' delay, so the guaranteed entrance order is
nodes before edges, and all labels but the last before edges — not
"nodes, then labels, then edges". -/
theorem entrance_order_amended (n : Nat) (hn : 1 ≤ n) :
    edgeEntranceDelay n = n * 80 + 200 ∧
    (∀ i, i < n → nodeEntranceDelay i < edgeEntranceDelay n) ∧
    (∀ i, i + 2 ≤ n → labelEntranceDelay i < edgeEntranceDelay n) ∧
    edgeEntranceDelay n < labelEntranceDelay (n - 1) := by
  refine ⟨rfl, fun i h => ?_, fun i h => ?_, ?_⟩ <;>
    simp only [nodeEntranceDelay, labelEntranceDelay, edgeEntranceDelay] <;> omega

/-- C8 amended, witnessed at `n = 2`. -/
theorem entrance_order_amended_witness :
    1 ≤ 2 ∧ edgeEntranceDelay 2 < labelEntranceDelay (2 - 1) :=
  ⟨by decide, (entrance_order_amended 2 (by decide)).2.2.2⟩

/-! ## C9: snippets nodes take the default palette entry -/

/-- C9 counterexample: `"toString"` is a category value outside
`{books, topics, inbox, default}`, yet `CATEGORY_COLORS["toString"]` is
the truthy `toString` function inherited from `Object.prototype`, so the
`||` fallback is not taken and the color lookup does NOT resolve to the
`default` palette entry — refuting the claimed fallback for every
non-listed category. -/
theorem categoryColor_proto_cex :
    "toString" ∉ ["books", "topics", "inbox", "default"] ∧
    categoryColors false "" "" "" "toString" ≠ none ∧
    getCategoryColor false "" "" "" "toString" ≠
      getCategoryColor false "" "" "" "default" := by decide

/-- C9 amended: the theme color table own-defines palette entries only
for `books`, `topics`, `inbox` and `default`; for every category outside
these four that is also not a property name inherited from
`Object.prototype` (`constructor`, `toString`, `valueOf`, ...), the
lookup yields `undefined` and falls back to the `default` entry. In
particular `snippets` — which `destinationToCategory` produces for
`destination = "snippets"` — is such a category, so snippets nodes are
colored identically to default-category nodes, for either theme and any
CSS custom-property values. -/
theorem snippets_default_color_amended :
    (∀ (dark : Bool) (vb vg vo cat : String),
        cat ∉ ["books", "topics", "inbox", "default"] →
        cat ∉ objectProtoKeys →
        categoryColors dark vb vg vo cat = none ∧
        getCategoryColor dark vb vg vo cat = getCategoryColor dark vb vg vo "default") ∧
    destinationToCategory "snippets" = "snippets" ∧
    (∀ (dark : Bool) (vb vg vo : String),
        getCategoryColor dark vb vg vo "snippets" =
          getCategoryColor dark vb vg vo "default") := by
  refine ⟨?_, rfl, ?_⟩
  · intro dark vb vg vo cat hcat hproto
    simp only [List.mem_cons, List.not_mem_nil, or_false, not_or] at hcat
    obtain ⟨h1, h2, h3, h4⟩ := hcat
    have e1 : (cat == "books") = false := beq_eq_false_iff_ne.mpr h1
    have e2 : (cat == "topics") = false := beq_eq_false_iff_ne.mpr h2
    have e3 : (cat == "inbox") = false := beq_eq_false_iff_ne.mpr h3
    have e4 : (cat == "default") = false := beq_eq_false_iff_ne.mpr h4
    constructor
    · simp [categoryColors, e1, e2, e3, e4, hproto]
    · simp [getCategoryColor, categoryColors, e1, e2, e3, e4, hproto]
  · intro dark vb vg vo
    rfl

/-- C9 amended, witnessed at the `snippets` category in the dark theme
with unset CSS custom properties. -/
theorem snippets_default_color_amended_witness :
    categoryColors true "" "" "" "snippets" = none ∧
    getCategoryColor true "" "" "" "snippets" = getCategoryColor true "" "" "" "default" :=
  snippets_default_color_amended.1 true "" "" "" "snippets" (by decide) (by decide)

/-! ## C7: idempotent re-activation -/

/-- C7: if the current view's rendered flag is already true,
`renderCurrentView` is a no-op — it returns the state unchanged and
invokes no renderer (hence no layout computation and no animation
restart); conversely, whenever it does invoke a renderer, the current
view's rendered flag was false. -/
theorem render_idempotent :
    (∀ s : ViewState, s.currentView ∈ knownViews →
        viewRenderedFlag s s.currentView = true → renderCurrentView s = (s, [])) ∧
    (∀ s : ViewState, (renderCurrentView s).2 ≠ [] →
        viewRenderedFlag s s.currentView = false) := by
  constructor
  · rintro ⟨cv, sv, ac, gr, gd, rr, tr, cd⟩ hv hflag
    simp only [knownViews, List.mem_cons, List.not_mem_nil, or_false] at hv
    rcases hv with h | h | h | h <;> subst h
    · have hg : gr = true := hflag
      subst hg
      cases cd <;> rfl
    · have hg : gd = true := hflag
      subst hg
      cases cd <;> rfl
    · have hg : rr = true := hflag
      subst hg
      cases cd <;> rfl
    · have hg : tr = true := hflag
      subst hg
      cases cd <;> rfl
  · rintro ⟨cv, sv, ac, gr, gd, rr, tr, cd⟩ h
    simp only [renderCurrentView] at h
    split_ifs at h with h1 h2 h3 h4 h5
    · simp only [Bool.and_eq_true, beq_iff_eq, Bool.not_eq_true'] at h1
      obtain ⟨hcv, htr⟩ := h1
      subst hcv
      exact htr
    · exact absurd rfl h
    · simp only [Bool.and_eq_true, beq_iff_eq, Bool.not_eq_true'] at h3
      obtain ⟨hcv, hgr⟩ := h3
      subst hcv
      exact hgr
    · simp only [Bool.and_eq_true, beq_iff_eq, Bool.not_eq_true'] at h4
      obtain ⟨hcv, hgd⟩ := h4
      subst hcv
      exact hgd
    · simp only [Bool.and_eq_true, beq_iff_eq, Bool.not_eq_true'] at h5
      obtain ⟨hcv, hrr⟩ := h5
      subst hcv
      exact hrr
    · exact absurd rfl h

/-- C7 witnessed: re-dispatching the already-rendered graph view is a
no-op. -/
theorem render_idempotent_witness :
    renderCurrentView ⟨"graph", "graph", some "graph", true, false, false, false, none⟩ =
      (⟨"graph", "graph", some "graph", true, false, false, false, none⟩, []) :=
  render_idempotent.1 _ (by decide) (by decide)

/-! ## C10: view switching is total on arbitrary view-name strings -/

/-- C10: for a view name outside `{graph, grid, radial, time}`,
`switchView` stores and persists that string, leaves no container active,
and the dispatched `renderCurrentView` invokes no renderer and changes no
rendered flag — the whole operation is a total function (no error). -/
theorem switchView_unknown_total (s : ViewState) (v : String) (hv : v ∉ knownViews) :
    switchView s v =
      ({ s with currentView := v, storedViewMode := v, activeContainer := none }, []) := by
  obtain ⟨cv, sv, ac, gr, gd, rr, tr, cd⟩ := s
  have h1 : ¬ v = "graph" := fun h => hv (by simp [knownViews, h])
  have h2 : ¬ v = "grid" := fun h => hv (by simp [knownViews, h])
  have h3 : ¬ v = "radial" := fun h => hv (by simp [knownViews, h])
  have h4 : ¬ v = "time" := fun h => hv (by simp [knownViews, h])
  have e1 : (v == "graph") = false := beq_eq_false_iff_ne.mpr h1
  have e2 : (v == "grid") = false := beq_eq_false_iff_ne.mpr h2
  have e3 : (v == "radial") = false := beq_eq_false_iff_ne.mpr h3
  have e4 : (v == "time") = false := beq_eq_false_iff_ne.mpr h4
  simp only [switchView, if_neg hv]
  cases cd <;> simp [renderCurrentView, e1, e2, e3, e4]

/-- C10 witnessed at the stale persisted view name `"bogus"`. -/
theorem switchView_unknown_total_witness :
    switchView ⟨"graph", "graph", some "graph", false, false, false, false, none⟩ "bogus" =
      (⟨"bogus", "bogus", none, false, false, false, false, none⟩, []) :=
  switchView_unknown_total _ "bogus" (by decide)

/-! ## C2: neighbour counts -/

/-- The neighbour-count pass adds, to every node, the number of edges
incident to it. -/
theorem countNeighbours_eq (edges : List Edge) (nodes : List Node) :
    countNeighbours nodes edges =
      nodes.map (fun n =>
        { n with number_neighbours :=
            n.number_neighbours +
              edges.countP (fun e => decide (n.id = e.source ∨ n.id = e.target)) }) := by
  induction edges generalizing nodes with
  | nil =>
    simp only [countNeighbours, List.foldl_nil, List.countP_nil, Nat.add_zero]
    rw [show (fun n : Node => { n with number_neighbours := n.number_neighbours }) = id
          from funext fun n => by cases n; rfl,
        List.map_id]
  | cons e es ih =>
    have step : countNeighbours nodes (e :: es) =
        countNeighbours
          (nodes.map (fun n =>
            if n.id = e.source ∨ n.id = e.target then
              { n with number_neighbours := n.number_neighbours + 1 }
            else n))
          es := rfl
    rw [step, ih, List.map_map]
    apply List.map_congr_left
    intro n _
    simp only [Function.comp_apply]
    by_cases hinc : n.id = e.source ∨ n.id = e.target
    · rw [if_pos hinc]
      cases n
      simp only [List.countP_cons, Node.mk.injEq, true_and] at hinc ⊢
      simp [hinc]
      omega
    · rw [if_neg hinc]
      cases n
      simp only [List.countP_cons, Node.mk.injEq, true_and] at hinc ⊢
      simp [hinc]

/-- Every node produced by `buildNodes` starts with a zero neighbour count. -/
theorem buildNodes_nn_zero (notes : List Note) (n : Node) (hn : n ∈ buildNodes notes) :
    n.number_neighbours = 0 := by
  simp only [buildNodes, List.mem_map] at hn
  obtain ⟨nt, _, rfl⟩ := hn
  rfl

/-- C2: in the dataset returned by `buildGraphFromNotes`, every node's
`number_neighbours` equals the number of edges of the final edge set whose
source or target equals that node's id. -/
theorem neighbour_count_correct (notes : List Note) (n : Node)
    (hn : n ∈ (buildGraphFromNotes notes).nodes) :
    n.number_neighbours =
      (buildGraphFromNotes notes).edges.countP
        (fun e => decide (e.source = n.id ∨ e.target = n.id)) := by
  simp only [buildGraphFromNotes] at hn ⊢
  rw [countNeighbours_eq] at hn
  simp only [List.mem_map] at hn
  obtain ⟨n0, hn0, rfl⟩ := hn
  have hz : n0.number_neighbours = 0 := buildNodes_nn_zero notes n0 hn0
  simp only [hz, Nat.zero_add]
  congr 1
  funext e
  simp [eq_comm]

/-- C2 witnessed on a two-note corpus whose single shared tag produces one
edge, so the first node's count is 1. -/
theorem neighbour_count_correct_witness :
    (⟨"a", "ta", 1, "inbox", ["t"]⟩ : Node).number_neighbours =
      (buildGraphFromNotes twoNoteCorpus).edges.countP
        (fun e => decide (e.source = (⟨"a", "ta", 1, "inbox", ["t"]⟩ : Node).id ∨
                          e.target = (⟨"a", "ta", 1, "inbox", ["t"]⟩ : Node).id)) :=
  neighbour_count_correct twoNoteCorpus _ (by decide)

/-! ## C3: which todos participate in the analytics -/

/-- An optional string is JS-falsy iff it is absent or empty. -/
theorem strOptTruthy_eq_false (o : Option String) :
    strOptTruthy o = false ↔ (o = none ∨ o = some "") := by
  cases o <;> simp [strOptTruthy]

/-- C3 counterexample: a completed, actual-time-recorded todo whose
`parentId` is `""` (non-null but JS-falsy) IS counted by the code
(`!t.parentId` is true for the empty string), so the claimed equivalence
"participates iff ... parentId is null" fails at this input. -/
theorem analytics_participation_cex :
    ¬ (emptyParentTodo ∈ completedTodosOf [emptyParentTodo] .all none none epochDate ↔
        (emptyParentTodo ∈
            filterTodosByTimeRange [emptyParentTodo] (getTimeFilterRange .all none none epochDate) ∧
         emptyParentTodo.done = true ∧ emptyParentTodo.actualMin.isSome = true ∧
         emptyParentTodo.parentId = none)) := by decide

/-- C3 amended: a todo participates in the analytics aggregation iff it
survives the active time-range filter, its `done` flag is true, its
`actualMin` is non-null, and its `parentId` is JS-falsy — that is, null,
undefined, or the empty string. -/
theorem analytics_participation_amended (allTodos : List Todo) (mode : TimeFilterMode)
    (cf ct : Option Int) (now : JSDate) (t : Todo) :
    t ∈ completedTodosOf allTodos mode cf ct now ↔
      (t ∈ filterTodosByTimeRange allTodos (getTimeFilterRange mode cf ct now) ∧
       t.done = true ∧ t.actualMin.isSome = true ∧
       (t.parentId = none ∨ t.parentId = some "")) := by
  rw [completedTodosOf, List.mem_filter]
  simp only [Bool.and_eq_true, Bool.not_eq_true', strOptTruthy_eq_false, and_assoc]

/-! ## C4: aggregation correctness -/

/-- C4: on the three completed top-level todos
`[{A,25,30}, {A,20,10}, {B,25,5}]` the aggregation yields category data
`[{A,45,40,2}, {B,25,5,1}]` sorted descending by actual time, and the
summary stats completed = 3, actual = 45, estimated = 70,
pomodoros = round(45/25 * 10)/10 = 1.8 = 9/5; in general a missing
`estimatedMin` defaults to 25 and a missing `category` defaults to the
`"Uncategorized"` label. -/
theorem aggregation_correct :
    completedTodosOf specTodos .all none none epochDate = specTodos ∧
    categoryData (completedTodosOf specTodos .all none none epochDate) =
      [⟨"A", 45, 40, 2⟩, ⟨"B", 25, 5, 1⟩] ∧
    (completedTodosOf specTodos .all none none epochDate).length = 3 ∧
    totalActualOf (completedTodosOf specTodos .all none none epochDate) = 45 ∧
    totalEstimatedOf (completedTodosOf specTodos .all none none epochDate) = 70 ∧
    totalPomodorosOf (completedTodosOf specTodos .all none none epochDate) = 9 / 5 ∧
    (∀ t : Todo, t.estimatedMin = none → estOf t = 25) ∧
    (∀ t : Todo, t.category = none → catOf t = "Uncategorized") := by
  refine ⟨by decide, by decide, by decide, by decide, by decide, ?_, ?_, ?_⟩
  · have h45 : totalActualOf (completedTodosOf specTodos .all none none epochDate) = 45 := by
      decide
    simp only [totalPomodorosOf, jsRound, h45]
    have hq : ((45 : Int) : Rat) / 25 * 10 + 1 / 2 = 37 / 2 := by norm_num
    rw [hq]
    have h2 : Rat.floor ((37 : Rat) / 2) = 18 := by
      have he : Rat.floor ((37 : Rat) / 2) = ⌊(37 : Rat) / 2⌋ := rfl
      rw [he, show ((37 : Rat) / 2) = ((37 : Int) : Rat) / ((2 : Nat) : Rat) by norm_num,
          Rat.floor_intCast_div_natCast]
      decide
    rw [h2]
    norm_num
  · intro t h
    simp [estOf, h]
  · intro t h
    simp [catOf, h]

/-- C4, default clauses witnessed on a concrete todo with missing
`estimatedMin` and `category`. -/
theorem aggregation_correct_witness :
    estOf datelessTodo = 25 ∧ catOf datelessTodo = "Uncategorized" :=
  ⟨aggregation_correct.2.2.2.2.2.2.1 datelessTodo rfl,
   aggregation_correct.2.2.2.2.2.2.2 datelessTodo rfl⟩

/-! ## C6: missing/unparseable timestamps fail open -/

/-- C6: for every todo and every time range (in particular the bounded
ones), if the todo's timestamp — `completedAt` falling back to `updatedAt`
then `createdAt` — is missing (JS-falsy) or does not parse to a valid
date, the range filter includes the todo. -/
theorem timeFilter_failOpen (t : Todo) (todos : List Todo) (r : TimeRange)
    (ht : t ∈ todos) (hmiss : timestampMissingOrUnparseable t = true) :
    t ∈ filterTodosByTimeRange todos r := by
  rw [filterTodosByTimeRange]
  by_cases hb : (r.fromMs.isNone && r.toMs.isNone) = true
  · rw [if_pos hb]
    exact ht
  · rw [if_neg hb]
    refine List.mem_filter.mpr ⟨ht, ?_⟩
    rw [timestampMissingOrUnparseable] at hmiss
    rw [todoKeep]
    cases hdv : dateValOf t with
    | none => rfl
    | some v =>
      rw [hdv] at hmiss
      simp only [Bool.or_eq_true, Bool.not_eq_true', Option.isNone_iff_eq_none] at hmiss
      rcases hmiss with hv | hp
      · simp [hv]
      · simp [hp]

/-- C6 witnessed: a dateless todo passes a bounded (empty) range. -/
theorem timeFilter_failOpen_witness :
    datelessTodo ∈ filterTodosByTimeRange [datelessTodo] ⟨some 0, some 0⟩ :=
  timeFilter_failOpen datelessTodo [datelessTodo] ⟨some 0, some 0⟩ (by decide) (by decide)

/-! ## C5: time-filter monotonicity -/

/-- `monthOffset` is always between 0 and 335. -/
theorem monthOffset_bounds (b : Bool) (m : Nat) :
    0 ≤ monthOffset b m ∧ monthOffset b m ≤ 335 := by
  unfold monthOffset
  cases b <;> simp <;> split <;> omega

/-- Subtracting 7 from the day field shifts the day number by exactly 7. -/
theorem civilToDays_day_shift (y : Int) (m : Nat) (d : Int) :
    civilToDays y m (d - 7) = civilToDays y m d - 7 := by
  unfold civilToDays
  ring

/-- Stepping the month index back by one (with year borrow, as JS
`setMonth(getMonth() - 1)`) moves the day number back by at least 7
(in fact by a full month length). -/
theorem monthAgo_days_le (y : Int) (m : Nat) (d : Int) (hm : m < 12) :
    civilToDays (y + ((m : Int) - 1) / 12) ((((m : Int) - 1) % 12).toNat) d ≤
      civilToDays y m d - 7 := by
  cases m with
  | zero =>
    have h1 : (((0 : Nat) : Int) - 1) / 12 = -1 := by decide
    have h2 : ((((0 : Nat) : Int) - 1) % 12).toNat = 11 := by decide
    rw [h1, h2]
    have hy : y + -1 = y - 1 := by ring
    rw [hy]
    unfold civilToDays daysToYear
    have hb := monthOffset_bounds (isLeapB (y - 1)) 11
    have h0 : monthOffset (isLeapB y) 0 = 0 := rfl
    omega
  | succ k =>
    have hcast : ((Nat.succ k : Nat) : Int) - 1 = (k : Int) := by push_cast; ring
    have h1 : (((Nat.succ k : Nat) : Int) - 1) / 12 = 0 := by rw [hcast]; omega
    have h2 : ((((Nat.succ k : Nat) : Int) - 1) % 12).toNat = k := by rw [hcast]; omega
    rw [h1, h2, add_zero]
    unfold civilToDays
    have hk : k < 11 := by omega
    have hd : monthOffset (isLeapB y) k + 7 ≤ monthOffset (isLeapB y) (k + 1) := by
      interval_cases k <;> simp [monthOffset] <;> split_ifs <;> omega
    omega

/-- Stepping the year back by one (as JS `setFullYear(getFullYear() - 1)`)
lands at or before the month-ago date. -/
theorem yearAgo_days_le (y : Int) (m : Nat) (d : Int) (hm : m < 12) :
    civilToDays (y - 1) m d ≤
      civilToDays (y + ((m : Int) - 1) / 12) ((((m : Int) - 1) % 12).toNat) d := by
  cases m with
  | zero =>
    have h1 : (((0 : Nat) : Int) - 1) / 12 = -1 := by decide
    have h2 : ((((0 : Nat) : Int) - 1) % 12).toNat = 11 := by decide
    rw [h1, h2]
    have hy : y + -1 = y - 1 := by ring
    rw [hy]
    unfold civilToDays
    have hb := monthOffset_bounds (isLeapB (y - 1)) 11
    have h0 : monthOffset (isLeapB (y - 1)) 0 = 0 := rfl
    omega
  | succ k =>
    have hcast : ((Nat.succ k : Nat) : Int) - 1 = (k : Int) := by push_cast; ring
    have h1 : (((Nat.succ k : Nat) : Int) - 1) / 12 = 0 := by rw [hcast]; omega
    have h2 : ((((Nat.succ k : Nat) : Int) - 1) % 12).toNat = k := by rw [hcast]; omega
    rw [h1, h2, add_zero]
    unfold civilToDays daysToYear
    have hb := monthOffset_bounds (isLeapB (y - 1)) (k + 1)
    have hb2 := monthOffset_bounds (isLeapB y) k
    omega

/-- Multiplying a day-level bound by the day length preserves it at the
millisecond level. -/
theorem ts_mono (a b ms : Int) (h : a ≤ b) : a * msPerDay + ms ≤ b * msPerDay + ms := by
  have hmul := mul_le_mul_of_nonneg_right h (show (0 : Int) ≤ msPerDay by norm_num [msPerDay])
  omega

/-- The month-ago bound lies at or before the week-ago bound. -/
theorem monthAgoTs_le_weekAgoTs (now : JSDate) (hm : now.month < 12) :
    monthAgoTs now ≤ weekAgoTs now := by
  obtain ⟨y, m, d, ms⟩ := now
  unfold monthAgoTs weekAgoTs
  simp only
  rw [civilToDays_day_shift]
  exact ts_mono _ _ _ (monthAgo_days_le y m d hm)

/-- The year-ago bound lies at or before the month-ago bound. -/
theorem yearAgoTs_le_monthAgoTs (now : JSDate) (hm : now.month < 12) :
    yearAgoTs now ≤ monthAgoTs now := by
  obtain ⟨y, m, d, ms⟩ := now
  unfold yearAgoTs monthAgoTs
  simp only
  exact ts_mono _ _ _ (yearAgo_days_le y m d hm)

/-- Weakening the lower bound of a (doubly bounded) range keeps every
todo that the stronger range kept. -/
theorem filter_range_mono (todos : List Todo) (f1 f2 u : Int) (h : f2 ≤ f1) :
    ∀ t ∈ filterTodosByTimeRange todos ⟨some f1, some u⟩,
      t ∈ filterTodosByTimeRange todos ⟨some f2, some u⟩ := by
  intro t ht
  rw [filterTodosByTimeRange] at ht ⊢
  rw [if_neg (by simp)] at ht ⊢
  rw [List.mem_filter] at ht ⊢
  refine ⟨ht.1, ?_⟩
  have hk := ht.2
  rw [todoKeep] at hk ⊢
  cases hdv : dateValOf t with
  | none => rfl
  | some v =>
    cases htr : v.truthy with
    | false => simp [htr]
    | true =>
      cases hp : parseTS v with
      | none => simp [htr, hp]
      | some dts =>
        rw [hdv] at hk
        simp only [htr, hp, Bool.not_true] at hk ⊢
        rw [if_neg Bool.false_ne_true] at hk ⊢
        split_ifs at hk with ha hb
        simp only [decide_eq_true_eq] at ha hb
        split_ifs with hc hd
        · simp only [decide_eq_true_eq] at hc
          omega
        · simp only [decide_eq_true_eq] at hd
          exact absurd hd hb
        · rfl

/-- Every todo surviving any range filter came from the input list. -/
theorem filter_range_sub (todos : List Todo) (r : TimeRange) :
    ∀ t ∈ filterTodosByTimeRange todos r, t ∈ todos := by
  intro t ht
  rw [filterTodosByTimeRange] at ht
  by_cases hb : (r.fromMs.isNone && r.toMs.isNone) = true
  · rw [if_pos hb] at ht
    exact ht
  · rw [if_neg hb] at ht
    exact (List.mem_filter.mp ht).1

/-- C5: for any fixed current time `now` (any valid month index) and any
todo list, the time-range filter is monotone in the preset: the result
for `week` is a subset of the result for `month`, which is a subset of
the result for `year`, which is a subset of the result for `all`. -/
theorem timeFilter_monotone (now : JSDate) (hm : now.month < 12) (todos : List Todo)
    (cf ct : Option Int) :
    (∀ t ∈ filterTodosByTimeRange todos (getTimeFilterRange .week cf ct now),
        t ∈ filterTodosByTimeRange todos (getTimeFilterRange .month cf ct now)) ∧
    (∀ t ∈ filterTodosByTimeRange todos (getTimeFilterRange .month cf ct now),
        t ∈ filterTodosByTimeRange todos (getTimeFilterRange .year cf ct now)) ∧
    (∀ t ∈ filterTodosByTimeRange todos (getTimeFilterRange .year cf ct now),
        t ∈ filterTodosByTimeRange todos (getTimeFilterRange .all cf ct now)) := by
  refine ⟨?_, ?_, ?_⟩
  · exact filter_range_mono todos (weekAgoTs now) (monthAgoTs now) now.ts
      (monthAgoTs_le_weekAgoTs now hm)
  · exact filter_range_mono todos (monthAgoTs now) (yearAgoTs now) now.ts
      (yearAgoTs_le_monthAgoTs now hm)
  · intro t ht
    exact filter_range_sub todos _ t ht

/-- C5 witnessed at 2024-06-15 on a one-todo list completed at that
instant: it survives the week filter, and the theorem places it in the
month filter's result. -/
theorem timeFilter_monotone_witness :
    stampedTodo (JSDate.ts ⟨2024, 5, 15, 0⟩) ∈
      filterTodosByTimeRange [stampedTodo (JSDate.ts ⟨2024, 5, 15, 0⟩)]
        (getTimeFilterRange .month none none ⟨2024, 5, 15, 0⟩) :=
  (timeFilter_monotone ⟨2024, 5, 15, 0⟩ (by decide)
      [stampedTodo (JSDate.ts ⟨2024, 5, 15, 0⟩)] none none).1
    (stampedTodo (JSDate.ts ⟨2024, 5, 15, 0⟩)) (by decide)

/-! ## C1: the edge set is a simple graph (amended) -/

/-- Splitting at a separator character absent from both prefixes is
unambiguous. -/
theorem bar_chars_split (l1 : List Char) :
    ∀ (m1 l2 m2 : List Char), '|' ∉ l1 → '|' ∉ m1 →
      l1 ++ '|' :: l2 = m1 ++ '|' :: m2 → l1 = m1 ∧ l2 = m2 := by
  induction l1 with
  | nil =>
    intro m1 l2 m2 _ h2 he
    cases m1 with
    | nil => simpa using he
    | cons c m =>
      simp only [List.nil_append, List.cons_append, List.cons.injEq] at he
      exact absurd (he.1 ▸ List.mem_cons_self c m) (he.1 ▸ h2)
  | cons a l ih =>
    intro m1 l2 m2 h1 h2 he
    cases m1 with
    | nil =>
      simp only [List.nil_append, List.cons_append, List.cons.injEq] at he
      exact absurd (he.1 ▸ List.mem_cons_self a l) (fun hx => h1 (he.1 ▸ hx))
    | cons c m =>
      simp only [List.cons_append, List.cons.injEq] at he
      obtain ⟨hac, htail⟩ := he
      have h1t : '|' ∉ l := fun hx => h1 (List.mem_cons_of_mem a hx)
      have h2t : '|' ∉ m := fun hx => h2 (List.mem_cons_of_mem c hx)
      obtain ⟨hl, hr⟩ := ih m l2 m2 h1t h2t htail
      exact ⟨by rw [hac, hl], hr⟩

/-- Concatenation around the `'|'` separator is injective when neither
left part contains the separator. -/
theorem append_bar_inj (a b c d : String) (ha : '|' ∉ a.data) (hc : '|' ∉ c.data)
    (h : a ++ "|" ++ b = c ++ "|" ++ d) : a = c ∧ b = d := by
  have hdata : a.data ++ '|' :: b.data = c.data ++ '|' :: d.data := by
    have hh := congrArg String.data h
    simpa [String.data_append] using hh
  obtain ⟨h1, h2⟩ := bar_chars_split a.data c.data b.data d.data ha hc hdata
  constructor
  · cases a
    cases c
    exact congrArg String.mk (by simpa using h1)
  · cases b
    cases d
    exact congrArg String.mk (by simpa using h2)

/-- The dedup key determines the unordered id pair, for `'|'`-free ids. -/
theorem edgeKey_inj (a b c d : String) (ha : '|' ∉ a.data) (hb : '|' ∉ b.data)
    (hc : '|' ∉ c.data) (hd : '|' ∉ d.data) (h : edgeKey a b = edgeKey c d) :
    (a = c ∧ b = d) ∨ (a = d ∧ b = c) := by
  rw [edgeKey, edgeKey] at h
  split_ifs at h with h1 h2 h2
  · exact Or.inl (append_bar_inj a b c d ha hc h)
  · exact Or.inr (append_bar_inj a b d c ha hd h)
  · obtain ⟨x1, x2⟩ := append_bar_inj b a c d hb hc h
    exact Or.inr ⟨x2, x1⟩
  · obtain ⟨x1, x2⟩ := append_bar_inj b a d c hb hd h
    exact Or.inl ⟨x2, x1⟩

/-- Both components of a pair drawn from `allPairs l` are elements of `l`. -/
theorem mem_allPairs {α : Type} (l : List α) (p : α × α) (hp : p ∈ allPairs l) :
    p.1 ∈ l ∧ p.2 ∈ l := by
  induction l with
  | nil => simp [allPairs] at hp
  | cons a t ih =>
    simp only [allPairs, List.mem_append] at hp
    rcases hp with hp | hp
    · obtain ⟨b, hb, rfl⟩ := List.mem_map.mp hp
      exact ⟨List.mem_cons_self a t, List.mem_cons_of_mem a hb⟩
    · obtain ⟨hl, hr⟩ := ih hp
      exact ⟨List.mem_cons_of_mem a hl, List.mem_cons_of_mem a hr⟩

/-- When the projected list is duplicate-free, the two components of any
pair from `allPairs` have different projections. -/
theorem allPairs_fst_ne_snd {α β : Type} (f : α → β) (l : List α)
    (hn : (l.map f).Nodup) (p : α × α) (hp : p ∈ allPairs l) : f p.1 ≠ f p.2 := by
  induction l with
  | nil => simp [allPairs] at hp
  | cons a t ih =>
    rw [List.map_cons, List.nodup_cons] at hn
    simp only [allPairs, List.mem_append] at hp
    rcases hp with hp | hp
    · obtain ⟨b, hb, rfl⟩ := List.mem_map.mp hp
      intro he
      exact hn.1 (he ▸ List.mem_map_of_mem f hb)
    · exact ih hn.2 hp

/-- When the projected list is duplicate-free, elements with equal
projections are equal. -/
theorem nodup_map_inj_on {α β : Type} (f : α → β) (l : List α) (hn : (l.map f).Nodup)
    (x y : α) (hx : x ∈ l) (hy : y ∈ l) (hf : f x = f y) : x = y := by
  induction l with
  | nil => simp at hx
  | cons a t ih =>
    rw [List.map_cons, List.nodup_cons] at hn
    rcases List.mem_cons.mp hx with rfl | hx2
    · rcases List.mem_cons.mp hy with rfl | hy2
      · rfl
      · exfalso
        apply hn.1
        rw [hf]
        exact List.mem_map_of_mem f hy2
    · rcases List.mem_cons.mp hy with rfl | hy2
      · exfalso
        apply hn.1
        rw [← hf]
        exact List.mem_map_of_mem f hx2
      · exact ih hn.2 hx2 hy2

/-- Counting predicates that agree on every member agree. -/
theorem countP_congr_mem {α : Type} (l : List α) (p q : α → Bool)
    (h : ∀ a ∈ l, p a = q a) : l.countP p = l.countP q := by
  induction l with
  | nil => rfl
  | cons a t ih =>
    rw [List.countP_cons, List.countP_cons, h a (List.mem_cons_self a t),
        ih (fun x hx => h x (List.mem_cons_of_mem a hx))]

/-- Among all ordered pairs of a list with duplicate-free ids, exactly one
carries a given unordered id pair of two present, distinct-id elements. -/
theorem allPairs_countP_one (l : List Node) (hn : (l.map Node.id).Nodup)
    (a b : Node) (ha : a ∈ l) (hb : b ∈ l) (hab : a.id ≠ b.id) :
    (allPairs l).countP (fun p => pairConnectsB p a.id b.id) = 1 := by
  induction l with
  | nil => simp at ha
  | cons h t ih =>
    rw [List.map_cons, List.nodup_cons] at hn
    obtain ⟨hh, ht⟩ := hn
    simp only [allPairs, List.countP_append, List.countP_map]
    rcases List.mem_cons.mp ha with rfl | ha2
    · have hbt : b ∈ t := by
        rcases List.mem_cons.mp hb with heq | hbt
        · exact absurd (congrArg Node.id heq).symm hab
        · exact hbt
      have hhead : t.countP ((fun p => pairConnectsB p a.id b.id) ∘ fun y => (a, y)) =
          t.countP (fun y => y.id == b.id) := by
        apply countP_congr_mem
        intro y _
        simp [pairConnectsB, hab]
      have htail : (allPairs t).countP (fun p => pairConnectsB p a.id b.id) = 0 := by
        rw [List.countP_eq_zero]
        intro p hp
        obtain ⟨h1, h2⟩ := mem_allPairs t p hp
        have hp1 : p.1.id ≠ a.id := fun he => hh (he ▸ List.mem_map_of_mem Node.id h1)
        have hp2 : p.2.id ≠ a.id := fun he => hh (he ▸ List.mem_map_of_mem Node.id h2)
        simp [pairConnectsB, hp1, hp2]
      rw [hhead, htail]
      have hcnt : t.countP (fun y => y.id == b.id) = (t.map Node.id).count b.id := by
        rw [List.count_eq_countP, List.countP_map]
        rfl
      rw [hcnt, List.count_eq_one_of_mem ht (List.mem_map_of_mem Node.id hbt)]
    · rcases List.mem_cons.mp hb with rfl | hb2
      · have hat : a ∈ t := ha2
        have hhead : t.countP ((fun p => pairConnectsB p a.id b.id) ∘ fun y => (b, y)) =
            t.countP (fun y => y.id == a.id) := by
          apply countP_congr_mem
          intro y _
          have hba : b.id ≠ a.id := fun he => hab he.symm
          simp [pairConnectsB, hba]
        have htail : (allPairs t).countP (fun p => pairConnectsB p a.id b.id) = 0 := by
          rw [List.countP_eq_zero]
          intro p hp
          obtain ⟨h1, h2⟩ := mem_allPairs t p hp
          have hp1 : p.1.id ≠ b.id := fun he => hh (he ▸ List.mem_map_of_mem Node.id h1)
          have hp2 : p.2.id ≠ b.id := fun he => hh (he ▸ List.mem_map_of_mem Node.id h2)
          simp [pairConnectsB, hp1, hp2]
        rw [hhead, htail]
        have hcnt : t.countP (fun y => y.id == a.id) = (t.map Node.id).count a.id := by
          rw [List.count_eq_countP, List.countP_map]
          rfl
        rw [hcnt, List.count_eq_one_of_mem ht (List.mem_map_of_mem Node.id hat)]
      · have hhead : t.countP ((fun p => pairConnectsB p a.id b.id) ∘ fun y => (h, y)) = 0 := by
          rw [List.countP_eq_zero]
          intro y _
          have hha : h.id ≠ a.id := fun he => hh (he ▸ List.mem_map_of_mem Node.id ha2)
          have hhb : h.id ≠ b.id := fun he => hh (he ▸ List.mem_map_of_mem Node.id hb2)
          simp [pairConnectsB, hha, hhb]
        rw [hhead, ih ht ha2 hb2]

/-- Inner-loop characterization: when every sharing pair's key is fresh
and keys of distinct partners differ, the dedup check never fires, so the
loop appends exactly one edge per partner of `a` sharing a tag, and every
new key is the key of such a partner. -/
theorem innerLoop_spec (a : Node) (rest : List Node) :
    ∀ (ks : List String) (es : List Edge),
      (∀ b ∈ rest, sharesTagB a b = true → edgeKey a.id b.id ∉ ks) →
      (∀ b1 ∈ rest, ∀ b2 ∈ rest, edgeKey a.id b1.id = edgeKey a.id b2.id → b1.id = b2.id) →
      (rest.map Node.id).Nodup →
      (innerLoop a rest ks es).2 =
          es ++ (rest.filter (fun b => sharesTagB a b)).map (fun b => mkTagEdge (a, b)) ∧
      (∀ k ∈ (innerLoop a rest ks es).1,
          k ∈ ks ∨ ∃ b ∈ rest, sharesTagB a b = true ∧ k = edgeKey a.id b.id) := by
  induction rest with
  | nil =>
    intro ks es _ _ _
    constructor
    · simp [innerLoop]
    · intro k hk
      exact Or.inl (by simpa [innerLoop] using hk)
  | cons b rest2 ih =>
    intro ks es hfresh hinj hnodup
    rw [List.map_cons, List.nodup_cons] at hnodup
    obtain ⟨hbid, hnd2⟩ := hnodup
    have hinj2 : ∀ b1 ∈ rest2, ∀ b2 ∈ rest2,
        edgeKey a.id b1.id = edgeKey a.id b2.id → b1.id = b2.id :=
      fun b1 h1 b2 h2 => hinj b1 (List.mem_cons_of_mem b h1) b2 (List.mem_cons_of_mem b h2)
    have hfresh2 : ∀ b2 ∈ rest2, sharesTagB a b2 = true → edgeKey a.id b2.id ∉ ks :=
      fun b2 h2 hs => hfresh b2 (List.mem_cons_of_mem b h2) hs
    have heq : innerLoop a (b :: rest2) ks es =
        if b.tags.isEmpty then innerLoop a rest2 ks es
        else if sharesTagB a b then
          (if edgeKey a.id b.id ∈ ks then innerLoop a rest2 ks es
           else innerLoop a rest2 (edgeKey a.id b.id :: ks) (es ++ [⟨a.id, b.id, "tag"⟩]))
        else innerLoop a rest2 ks es := rfl
    rw [heq]
    by_cases hbe : b.tags.isEmpty = true
    · have hsh : sharesTagB a b = false := by
        simp [sharesTagB, List.isEmpty_iff.mp hbe]
      rw [if_pos hbe]
      obtain ⟨ih1, ih2⟩ := ih ks es hfresh2 hinj2 hnd2
      constructor
      · rw [ih1, List.filter_cons_of_neg (by simp [hsh])]
      · intro k hk
        rcases ih2 k hk with h | ⟨b2, h2, hs2, hkk⟩
        · exact Or.inl h
        · exact Or.inr ⟨b2, List.mem_cons_of_mem b h2, hs2, hkk⟩
    · rw [if_neg hbe]
      by_cases hsh : sharesTagB a b = true
      · rw [if_pos hsh]
        have hnotin : edgeKey a.id b.id ∉ ks := hfresh b (List.mem_cons_self b rest2) hsh
        rw [if_neg hnotin]
        have hfresh3 : ∀ b2 ∈ rest2, sharesTagB a b2 = true →
            edgeKey a.id b2.id ∉ (edgeKey a.id b.id :: ks) := by
          intro b2 h2 hs2 hmem
          rcases List.mem_cons.mp hmem with hkey | hmem2
          · have hbid2 : b2.id = b.id :=
              hinj b2 (List.mem_cons_of_mem b h2) b (List.mem_cons_self b rest2) hkey
            exact hbid (hbid2 ▸ List.mem_map_of_mem Node.id h2)
          · exact hfresh b2 (List.mem_cons_of_mem b h2) hs2 hmem2
        obtain ⟨ih1, ih2⟩ :=
          ih (edgeKey a.id b.id :: ks) (es ++ [⟨a.id, b.id, "tag"⟩]) hfresh3 hinj2 hnd2
        constructor
        · rw [ih1, List.filter_cons_of_pos hsh, List.map_cons, List.append_assoc]
          rfl
        · intro k hk
          rcases ih2 k hk with h | ⟨b2, h2, hs2, hkk⟩
          · rcases List.mem_cons.mp h with hkey | hmem2
            · exact Or.inr ⟨b, List.mem_cons_self b rest2, hsh, hkey⟩
            · exact Or.inl hmem2
          · exact Or.inr ⟨b2, List.mem_cons_of_mem b h2, hs2, hkk⟩
      · rw [if_neg hsh]
        have hsh2 : sharesTagB a b = false := Bool.not_eq_true _ ▸ eq_false_of_ne_true hsh
        obtain ⟨ih1, ih2⟩ := ih ks es hfresh2 hinj2 hnd2
        constructor
        · rw [ih1, List.filter_cons_of_neg (by simp [hsh2])]
        · intro k hk
          rcases ih2 k hk with h | ⟨b2, h2, hs2, hkk⟩
          · exact Or.inl h
          · exact Or.inr ⟨b2, List.mem_cons_of_mem b h2, hs2, hkk⟩

/-- Outer-loop characterization: with duplicate-free, separator-free ids
and all pair keys fresh, the nested loops emit exactly one `tag` edge per
ordered pair (in iteration order) whose nodes share a tag. -/
theorem outerLoop_spec (nodes : List Node) :
    ∀ (ks : List String) (es : List Edge),
      (nodes.map Node.id).Nodup →
      (∀ n ∈ nodes, '|' ∉ n.id.data) →
      (∀ p ∈ allPairs nodes, sharesTagB p.1 p.2 = true → edgeKey p.1.id p.2.id ∉ ks) →
      (outerLoop nodes ks es).2 =
          es ++ ((allPairs nodes).filter (fun p => sharesTagB p.1 p.2)).map mkTagEdge ∧
      (∀ k ∈ (outerLoop nodes ks es).1,
          k ∈ ks ∨ ∃ p ∈ allPairs nodes,
            sharesTagB p.1 p.2 = true ∧ k = edgeKey p.1.id p.2.id) := by
  induction nodes with
  | nil =>
    intro ks es _ _ _
    constructor
    · simp [outerLoop, allPairs]
    · intro k hk
      exact Or.inl (by simpa [outerLoop] using hk)
  | cons a rest ih =>
    intro ks es hnodup hbar hfresh
    rw [List.map_cons, List.nodup_cons] at hnodup
    obtain ⟨haid, hnd2⟩ := hnodup
    have hbar2 : ∀ n ∈ rest, '|' ∉ n.id.data := fun n h => hbar n (List.mem_cons_of_mem a h)
    have hbara : '|' ∉ a.id.data := hbar a (List.mem_cons_self a rest)
    have heq : outerLoop (a :: rest) ks es =
        if a.tags.isEmpty then outerLoop rest ks es
        else outerLoop rest (innerLoop a rest ks es).1 (innerLoop a rest ks es).2 := rfl
    have hpairs : allPairs (a :: rest) = rest.map (fun b => (a, b)) ++ allPairs rest := rfl
    rw [heq]
    by_cases hae : a.tags.isEmpty = true
    · have hshz : ∀ b : Node, sharesTagB a b = false := by
        intro b2
        simp [sharesTagB, List.isEmpty_iff.mp hae]
      rw [if_pos hae]
      have hfresh2 : ∀ p ∈ allPairs rest, sharesTagB p.1 p.2 = true →
          edgeKey p.1.id p.2.id ∉ ks :=
        fun p hp hs => hfresh p (by rw [hpairs]; exact List.mem_append_right _ hp) hs
      obtain ⟨ih1, ih2⟩ := ih ks es hnd2 hbar2 hfresh2
      constructor
      · rw [ih1, hpairs, List.filter_append]
        have hnil : (rest.map (fun b => (a, b))).filter (fun p => sharesTagB p.1 p.2) = [] := by
          rw [List.filter_eq_nil_iff]
          intro p hp
          obtain ⟨b, _, rfl⟩ := List.mem_map.mp hp
          simp [hshz b]
        rw [hnil, List.nil_append]
      · intro k hk
        rcases ih2 k hk with h | ⟨p, hp, hs, hkk⟩
        · exact Or.inl h
        · exact Or.inr ⟨p, by rw [hpairs]; exact List.mem_append_right _ hp, hs, hkk⟩
    · rw [if_neg hae]
      have hinj : ∀ b1 ∈ rest, ∀ b2 ∈ rest,
          edgeKey a.id b1.id = edgeKey a.id b2.id → b1.id = b2.id := by
        intro b1 h1 b2 h2 hkey
        rcases edgeKey_inj a.id b1.id a.id b2.id hbara (hbar2 b1 h1) hbara (hbar2 b2 h2) hkey with
          ⟨_, h⟩ | ⟨h1a, h2a⟩
        · exact h
        · exact h2a.trans h1a
      have hfreshI : ∀ b ∈ rest, sharesTagB a b = true → edgeKey a.id b.id ∉ ks := by
        intro b hb hs
        exact hfresh (a, b)
          (by rw [hpairs]; exact List.mem_append_left _ (List.mem_map_of_mem _ hb)) hs
      obtain ⟨in1, in2⟩ := innerLoop_spec a rest ks es hfreshI hinj hnd2
      have hfreshO : ∀ p ∈ allPairs rest, sharesTagB p.1 p.2 = true →
          edgeKey p.1.id p.2.id ∉ (innerLoop a rest ks es).1 := by
        intro p hp hs hmem
        obtain ⟨hp1, hp2⟩ := mem_allPairs rest p hp
        rcases in2 _ hmem with h | ⟨b, hb, _, hkk⟩
        · exact hfresh p (by rw [hpairs]; exact List.mem_append_right _ hp) hs h
        · rcases edgeKey_inj p.1.id p.2.id a.id b.id (hbar2 _ hp1) (hbar2 _ hp2) hbara
            (hbar2 b hb) hkk with ⟨h1, _⟩ | ⟨_, h2⟩
          · exact haid (h1 ▸ List.mem_map_of_mem Node.id hp1)
          · exact haid (h2 ▸ List.mem_map_of_mem Node.id hp2)
      obtain ⟨ih1, ih2⟩ :=
        ih (innerLoop a rest ks es).1 (innerLoop a rest ks es).2 hnd2 hbar2 hfreshO
      constructor
      · rw [ih1, in1, hpairs, List.filter_append, List.map_append, List.append_assoc]
        congr 2
        rw [List.filter_map, List.map_map]
        rfl
      · intro k hk
        rcases ih2 k hk with h | ⟨p, hp, hs, hkk⟩
        · rcases in2 k h with h2 | ⟨b, hb, hsb, hkk2⟩
          · exact Or.inl h2
          · exact Or.inr ⟨(a, b),
              by rw [hpairs]; exact List.mem_append_left _ (List.mem_map_of_mem _ hb), hsb, hkk2⟩
        · exact Or.inr ⟨p, by rw [hpairs]; exact List.mem_append_right _ hp, hs, hkk⟩

/-- With fresh initial state, `buildEdges` is exactly one `tag` edge per
iteration-ordered pair of nodes sharing a tag. -/
theorem buildEdges_char (nodes : List Node) (hnodup : (nodes.map Node.id).Nodup)
    (hbar : ∀ n ∈ nodes, '|' ∉ n.id.data) :
    buildEdges nodes =
      ((allPairs nodes).filter (fun p => sharesTagB p.1 p.2)).map mkTagEdge := by
  have h := outerLoop_spec nodes [] [] hnodup hbar (by intro p _ _; simp)
  simpa [buildEdges] using h.1

/-- Tag sharing, spelled with membership. -/
theorem sharesTagB_true_iff (a b : Node) :
    sharesTagB a b = true ↔ ∃ t, t ∈ a.tags ∧ t ∈ b.tags := by
  simp only [sharesTagB, List.any_eq_true]
  constructor
  · rintro ⟨t, ht, hc⟩
    exact ⟨t, ht, List.elem_iff.mp hc⟩
  · rintro ⟨t, ht, hc⟩
    exact ⟨t, ht, List.elem_iff.mpr hc⟩

/-- Tag sharing is symmetric. -/
theorem sharesTagB_comm (a b : Node) : sharesTagB a b = sharesTagB b a := by
  rw [Bool.eq_iff_iff, sharesTagB_true_iff, sharesTagB_true_iff]
  constructor <;> rintro ⟨t, h1, h2⟩ <;> exact ⟨t, h2, h1⟩

/-- `connectsB` is symmetric in the id pair. -/
theorem connectsB_comm (e : Edge) (u v : String) : connectsB e u v = connectsB e v u := by
  rw [connectsB, connectsB, Bool.or_comm]

/-- The neighbour-count pass preserves ids and tags. -/
theorem countNeighbours_mem (nodes : List Node) (edges : List Edge) (n : Node)
    (hn : n ∈ countNeighbours nodes edges) :
    ∃ n0 ∈ nodes, n.id = n0.id ∧ n.tags = n0.tags := by
  rw [countNeighbours_eq] at hn
  obtain ⟨n0, h0, rfl⟩ := List.mem_map.mp hn
  exact ⟨n0, h0, rfl, rfl⟩

/-- The normalized node ids are the ids of the kept notes. -/
theorem buildNodes_ids (notes : List Note) :
    (buildNodes notes).map Node.id = (notes.filter (fun nt => !(nt.title == ""))).map Note.id := by
  rw [buildNodes, List.map_map]
  rfl

/-- Distinct note ids give distinct node ids. -/
theorem buildNodes_nodup (notes : List Note) (h : (notes.map Note.id).Nodup) :
    ((buildNodes notes).map Node.id).Nodup := by
  rw [buildNodes_ids]
  exact List.Nodup.sublist ((List.filter_sublist _).map Note.id) h

/-- Separator-free note ids give separator-free node ids. -/
theorem buildNodes_bar (notes : List Note) (h : ∀ nt ∈ notes, '|' ∉ nt.id.data) :
    ∀ n ∈ buildNodes notes, '|' ∉ n.id.data := by
  intro n hn
  rw [buildNodes] at hn
  obtain ⟨nt, hnt, rfl⟩ := List.mem_map.mp hn
  exact h nt (List.mem_of_mem_filter hnt)

/-- For two present nodes with distinct ids, the built edge list contains
exactly one edge between them when they share a tag, none otherwise. -/
theorem buildEdges_countP_pair (nodes : List Node) (hnodup : (nodes.map Node.id).Nodup)
    (hbar : ∀ n ∈ nodes, '|' ∉ n.id.data)
    (a b : Node) (ha : a ∈ nodes) (hb : b ∈ nodes) (hab : a.id ≠ b.id) :
    (buildEdges nodes).countP (fun e => connectsB e a.id b.id) =
      if sharesTagB a b = true then 1 else 0 := by
  rw [buildEdges_char nodes hnodup hbar, List.countP_map, List.countP_filter]
  show (allPairs nodes).countP
      (fun p => pairConnectsB p a.id b.id && sharesTagB p.1 p.2) = _
  have hkey : ∀ p ∈ allPairs nodes, pairConnectsB p a.id b.id = true →
      sharesTagB p.1 p.2 = sharesTagB a b := by
    intro p hp hc
    obtain ⟨hp1, hp2⟩ := mem_allPairs nodes p hp
    simp only [pairConnectsB, Bool.or_eq_true, Bool.and_eq_true, beq_iff_eq] at hc
    rcases hc with ⟨h1, h2⟩ | ⟨h1, h2⟩
    · have e1 : p.1 = a := nodup_map_inj_on Node.id nodes hnodup p.1 a hp1 ha h1
      have e2 : p.2 = b := nodup_map_inj_on Node.id nodes hnodup p.2 b hp2 hb h2
      rw [e1, e2]
    · have e1 : p.1 = b := nodup_map_inj_on Node.id nodes hnodup p.1 b hp1 hb h1
      have e2 : p.2 = a := nodup_map_inj_on Node.id nodes hnodup p.2 a hp2 ha h2
      rw [e1, e2, sharesTagB_comm]
  by_cases hs : sharesTagB a b = true
  · rw [if_pos hs]
    have hcong : ∀ p ∈ allPairs nodes,
        (pairConnectsB p a.id b.id && sharesTagB p.1 p.2) = pairConnectsB p a.id b.id := by
      intro p hp
      cases hc : pairConnectsB p a.id b.id
      · simp
      · simp [hkey p hp hc, hs]
    rw [countP_congr_mem _ _ _ hcong, allPairs_countP_one nodes hnodup a b ha hb hab]
  · rw [if_neg hs, List.countP_eq_zero]
    intro p hp hcon
    rw [Bool.and_eq_true] at hcon
    exact hs (((hkey p hp hcon.1).symm.trans hcon.2))

/-- C1 counterexample: two distinct note records that share the same id
and a tag produce a SELF-LOOP edge (source = target), contradicting the
claim that the edge set of `buildGraphFromNotes` is always a simple graph
with no self-loops. -/
theorem buildGraph_selfLoop_cex :
    ∃ e ∈ (buildGraphFromNotes
        [⟨"a", "x", "inbox", some ["t"]⟩, ⟨"a", "y", "inbox", some ["t"]⟩]).edges,
      e.source = e.target := by decide

/-- C1 amended: provided the note ids are pairwise distinct and contain no
`'|'` (the dedup-key separator — an id containing it can make two
different pairs collide on one key and lose an edge), the edge set is a
simple graph: every edge has type `tag` and distinct endpoints, no two
edges connect the same unordered id pair, and any two normalized nodes
with distinct ids are joined by exactly one edge when they share a tag
and by none otherwise, regardless of note order. -/
theorem buildGraph_simple_amended (notes : List Note)
    (hids : (notes.map Note.id).Nodup)
    (hbar : ∀ nt ∈ notes, '|' ∉ nt.id.data) :
    (∀ e ∈ (buildGraphFromNotes notes).edges, e.type = "tag" ∧ e.source ≠ e.target) ∧
    (∀ x y : String,
        (buildGraphFromNotes notes).edges.countP (fun e => connectsB e x y) ≤ 1) ∧
    (∀ a ∈ (buildGraphFromNotes notes).nodes, ∀ b ∈ (buildGraphFromNotes notes).nodes,
        a.id ≠ b.id →
          (buildGraphFromNotes notes).edges.countP (fun e => connectsB e a.id b.id) =
            if sharesTagB a b = true then 1 else 0) := by
  have hnodup := buildNodes_nodup notes hids
  have hbar2 := buildNodes_bar notes hbar
  have hedges : (buildGraphFromNotes notes).edges = buildEdges (buildNodes notes) := rfl
  have hnodes : (buildGraphFromNotes notes).nodes =
      countNeighbours (buildNodes notes) (buildEdges (buildNodes notes)) := rfl
  refine ⟨?_, ?_, ?_⟩
  · intro e he
    rw [hedges, buildEdges_char _ hnodup hbar2] at he
    obtain ⟨p, hp, rfl⟩ := List.mem_map.mp he
    have hpp := List.mem_filter.mp hp
    exact ⟨rfl, allPairs_fst_ne_snd Node.id _ hnodup p hpp.1⟩
  · intro x y
    by_cases hex : ∃ e ∈ (buildGraphFromNotes notes).edges, connectsB e x y = true
    · obtain ⟨e, he, hc⟩ := hex
      rw [hedges, buildEdges_char _ hnodup hbar2] at he
      obtain ⟨p, hp, rfl⟩ := List.mem_map.mp he
      have hpp := List.mem_filter.mp hp
      obtain ⟨hp1, hp2⟩ := mem_allPairs _ p hpp.1
      have hne := allPairs_fst_ne_snd Node.id _ hnodup p hpp.1
      have hc2 : (p.1.id = x ∧ p.2.id = y) ∨ (p.1.id = y ∧ p.2.id = x) := by
        have hc3 : ((p.1.id == x && p.2.id == y) || (p.1.id == y && p.2.id == x)) = true := hc
        simpa [Bool.or_eq_true, Bool.and_eq_true, beq_iff_eq] using hc3
      have hcount := buildEdges_countP_pair (buildNodes notes) hnodup hbar2 p.1 p.2 hp1 hp2 hne
      have hagree : (buildGraphFromNotes notes).edges.countP (fun e => connectsB e x y) =
          (buildGraphFromNotes notes).edges.countP (fun e => connectsB e p.1.id p.2.id) := by
        apply countP_congr_mem
        intro e2 _
        rcases hc2 with ⟨h1, h2⟩ | ⟨h1, h2⟩
        · rw [h1, h2]
        · rw [h1, h2, connectsB_comm]
      rw [hagree, hedges, hcount]
      split <;> omega
    · push_neg at hex
      have h0 : (buildGraphFromNotes notes).edges.countP (fun e => connectsB e x y) = 0 := by
        rw [List.countP_eq_zero]
        intro e he
        exact hex e he
      omega
  · intro a hha b hhb hab
    rw [hnodes] at hha hhb
    obtain ⟨a0, ha0, haid, hatags⟩ := countNeighbours_mem _ _ a hha
    obtain ⟨b0, hb0, hbid, hbtags⟩ := countNeighbours_mem _ _ b hhb
    have hab0 : a0.id ≠ b0.id := by
      rw [← haid, ← hbid]
      exact hab
    have hcount := buildEdges_countP_pair (buildNodes notes) hnodup hbar2 a0 b0 ha0 hb0 hab0
    have hshares : sharesTagB a b = sharesTagB a0 b0 := by
      rw [sharesTagB, sharesTagB, hatags, hbtags]
    rw [hedges, haid, hbid, hcount, hshares]

/-- C1 amended, witnessed on the two-note corpus: the two nodes share tag
`t`, and the edge list contains exactly one edge between them. -/
theorem buildGraph_simple_amended_witness :
    (buildGraphFromNotes twoNoteCorpus).edges.countP
        (fun e => connectsB e (⟨"a", "ta", 1, "inbox", ["t"]⟩ : Node).id
                             (⟨"b", "tb", 1, "topics", ["t"]⟩ : Node).id) =
      if sharesTagB ⟨"a", "ta", 1, "inbox", ["t"]⟩ ⟨"b", "tb", 1, "topics", ["t"]⟩ = true
      then 1 else 0 :=
  (buildGraph_simple_amended twoNoteCorpus (by decide) (by decide)).2.2
    ⟨"a", "ta", 1, "inbox", ["t"]⟩ (by decide) ⟨"b", "tb", 1, "topics", ["t"]⟩ (by decide)
    (by decide)

/-- C3 amended, witnessed on the empty-string-parent todo under the
all-time filter. -/
theorem analytics_participation_amended_witness :
    emptyParentTodo ∈ completedTodosOf [emptyParentTodo] .all none none epochDate ↔
      (emptyParentTodo ∈ filterTodosByTimeRange [emptyParentTodo]
          (getTimeFilterRange .all none none epochDate) ∧
       emptyParentTodo.done = true ∧ emptyParentTodo.actualMin.isSome = true ∧
       (emptyParentTodo.parentId = none ∨ emptyParentTodo.parentId = some "")) :=
  analytics_participation_amended [emptyParentTodo] .all none none epochDate emptyParentTodo
